import Mathlib

/-!
Verification of the conversation-store core of the comfyui-prompt-generator
repository, shallowly embedded in Lean 4.

Embedding map (source → Lean):
* A chat message (Python dict with `role` and `content` string fields) is
  `Message`.  Roles are arbitrary strings; the code compares them against
  the literals "system" / "user" / "assistant".
* `ConversationStore._trim_messages` in `app/database.py` is
  `AppDatabase.trim_messages`; the variant in `prompt_generator.py` is
  `PromptGenerator.trim_messages`.  Both take the `max_messages` budget as
  an explicit `Int` argument (Python ints may be negative).
* The SQLite `conversation_store` table (session_id TEXT PRIMARY KEY,
  model_type TEXT, conversation TEXT, updated_at TEXT) is `ConvTable`, a
  function from session id to an optional `SessionRecord`.  The
  `conversation` column holds either the `json.dumps` of a message list
  (`StoredConv.wellFormed`, with `json.loads ∘ json.dumps = id` on such
  data) or text that makes `json.loads` raise (`StoredConv.corrupt`).
  `updated_at` holds an ISO-8601 UTC timestamp; such strings of a fixed
  format compare lexicographically exactly as the instants they denote, so
  the column is modelled as an `Int` (hours) compared with `<`.
* `datetime.now` is passed in explicitly as the `now : Int` argument.
* `secrets.token_urlsafe(16)` in `create_session` is nondeterministic; the
  generated identifier is passed in as the `fresh_id` argument.
-/

set_option autoImplicit false

/-- A chat message: a `role` ("system" / "user" / "assistant" in normal
data, but any string can occur) and text content. -/
structure Message where
  role : String
  content : String
deriving DecidableEq, Repr

/-- `messages[0].get('role') == 'system'`, guarded by nonemptiness
(`headIsSystem [] = false`, matching the `not messages` short-circuit). -/
def headIsSystem (messages : List Message) : Bool :=
  match messages.head? with
  | some m => m.role == "system"
  | none => false

/-- The extracted `system_msg`, as a sublist: `[messages[0]]` when the head
has role system, else `[]` (Python's `system_msg = messages[0]` /  `None`). -/
def sysPart (messages : List Message) : List Message :=
  if headIsSystem messages then messages.take 1 else []

/-- `conv_messages`: `messages[1:]` when a leading system message was
extracted, otherwise `messages` itself. -/
def convPart (messages : List Message) : List Message :=
  if headIsSystem messages then messages.tail else messages

/-- `conv_messages[i].get('role')` for a nonnegative in-range index. -/
def roleAt (l : List Message) (i : Nat) : Option String :=
  (l.get? i).map Message.role

/-- Python `conv_messages[-keep_count:] if keep_count > 0 else []` for a
positive keep count (a nonpositive one yields `[]` by the source's own
conditional).  For `0 < k`, `l[-k:]` keeps the last `min k (length l)`
elements, i.e. drops `length l - k` from the front (Nat subtraction clamps
at 0 exactly as Python's negative-index clamping does). -/
def pySuffix (k : Int) (l : List Message) : List Message :=
  if 0 < k then l.drop (l.length - k.toNat) else []

/-- The pair-preserving adjustment shared by both implementations:
`start_index = len(conv) - keep_count`; if `start_index < len(conv)` and
the message there has role 'assistant', decrement `keep_count`.
Call sites only reach this with `keep = max_conv < len conv`, so
`start_index ≥ 1`; Python's
negative-index wraparound is therefore never exercised and `Int.toNat` is
faithful. -/
def adjustKeep (conv : List Message) (keep : Int) : Int :=
  if (conv.length : Int) - keep < (conv.length : Int) ∧
      roleAt conv ((conv.length : Int) - keep).toNat = some "assistant" then
    keep - 1
  else
    keep

/-- The trailing-orphan rule unique to `app/database.py`:
`if conv_messages and conv_messages[-1].get('role') == 'user':
   conv_messages = conv_messages[:-1]`. -/
def dropTrailingUser (l : List Message) : List Message :=
  if (l.getLast?).map Message.role = some "user" then l.dropLast else l

/-- `max_conv_messages = self.max_messages - (1 if system_msg else 0)`. -/
def maxConvOf (max_messages : Int) (messages : List Message) : Int :=
  max_messages - ((sysPart messages).length : Int)

namespace AppDatabase

/-- The `if len(conv_messages) > max_conv_messages:` block of
`app/database.py`'s `_trim_messages`: adjust the keep count to avoid
starting on an assistant turn, slice, then drop a trailing orphaned user
message. -/
def trimTail (max_messages : Int) (messages : List Message) : List Message :=
  if maxConvOf max_messages messages < ((convPart messages).length : Int) then
    dropTrailingUser
      (pySuffix (adjustKeep (convPart messages) (maxConvOf max_messages messages))
        (convPart messages))
  else
    convPart messages

/-- `ConversationStore._trim_messages` from `src/app/database.py`
(lines 116–160), with the instance's `max_messages` as first argument. -/
def trim_messages (max_messages : Int) (messages : List Message) : List Message :=
  if messages.isEmpty || decide ((messages.length : Int) ≤ max_messages) then
    messages
  else
    sysPart messages ++ trimTail max_messages messages

end AppDatabase

namespace PromptGenerator

/-- The `if len(conv_messages) > max_conv_messages:` block of
`prompt_generator.py`'s `_trim_messages`: the assistant-start adjustment
sits under the (redundant) `if keep_count < len(conv_messages)` guard, and
there is no trailing-orphan-user drop. -/
def trimTail (max_messages : Int) (messages : List Message) : List Message :=
  if maxConvOf max_messages messages < ((convPart messages).length : Int) then
    pySuffix
      (if maxConvOf max_messages messages < ((convPart messages).length : Int) then
        adjustKeep (convPart messages) (maxConvOf max_messages messages)
      else
        maxConvOf max_messages messages)
      (convPart messages)
  else
    convPart messages

/-- `ConversationStore._trim_messages` from `src/prompt_generator.py`
(lines 541–581). -/
def trim_messages (max_messages : Int) (messages : List Message) : List Message :=
  if messages.isEmpty || decide ((messages.length : Int) ≤ max_messages) then
    messages
  else
    sysPart messages ++ trimTail max_messages messages

end PromptGenerator

/-- The `conversation` TEXT column: either the `json.dumps` of a message
list (on which `json.loads` is a two-sided inverse), or text on which
`json.loads` raises `JSONDecodeError`. -/
inductive StoredConv where
  | wellFormed (msgs : List Message)
  | corrupt (raw : String)
deriving DecidableEq

/-- The `json.loads` applied by `get_conversation`, with its
`except json.JSONDecodeError: conversation = []` fallback. -/
def decodeConv : StoredConv → List Message
  | .wellFormed msgs => msgs
  | .corrupt _ => []

/-- One row of the `conversation_store` table (minus the key). -/
structure SessionRecord where
  model_type : String
  conversation : StoredConv
  updated_at : Int
deriving DecidableEq

/-- The `conversation_store` table: `session_id` is the sole primary key,
so the table is a partial map from session id to record. -/
def ConvTable : Type := String → Option SessionRecord

/-- The configuration fields of the Python `ConversationStore` instance
(`db_path` names the table modelled by `ConvTable` and is omitted). -/
structure ConversationStore where
  max_messages : Int
  max_age_hours : Int

namespace AppDatabase

/-- `ConversationStore._cleanup` (`src/app/database.py` lines 162–171):
unless `max_age_hours` is falsy (0), delete every row with
`updated_at < now - max_age_hours`. -/
def cleanup (s : ConversationStore) (now : Int) (t : ConvTable) : ConvTable :=
  if s.max_age_hours = 0 then t
  else fun sid =>
    match t sid with
    | some r => if r.updated_at < now - s.max_age_hours then none else some r
    | none => none

/-- `ConversationStore.save_messages` (lines 220–248): trim, serialize,
upsert with a fresh `updated_at`, run the cleanup sweep, and return the
trimmed list.  Result: (returned value, table after the write). -/
def save_messages (s : ConversationStore) (now : Int) (t : ConvTable)
    (session_id : String) (messages : List Message) (model_type : String) :
    List Message × ConvTable :=
  let trimmed := trim_messages s.max_messages messages
  let upserted : ConvTable := fun sid =>
    if sid = session_id then
      some ⟨model_type, StoredConv.wellFormed trimmed, now⟩
    else t sid
  (trimmed, cleanup s now upserted)

/-- `ConversationStore.get_conversation` (lines 189–218).  `if not
session_id` treats both `None` and the empty string as missing. -/
def get_conversation (t : ConvTable) (session_id : Option String) :
    List Message × Option String :=
  match session_id with
  | none => ([], none)
  | some sid =>
    if sid = "" then ([], none)
    else
      match t sid with
      | none => ([], none)
      | some r => (decodeConv r.conversation, some r.model_type)

/-- `ConversationStore.delete_session` (lines 250–262): no-op on a falsy
identifier, otherwise delete the row with that key. -/
def delete_session (t : ConvTable) (session_id : Option String) : ConvTable :=
  match session_id with
  | none => t
  | some sid =>
    if sid = "" then t
    else fun x => if x = sid then none else t x

/-- `ConversationStore.create_session` (lines 173–187): persist the initial
messages under a freshly generated identifier (`secrets.token_urlsafe(16)`,
passed in as `fresh_id`) and return it.  `initial_messages or []` is the
identity on lists, since an empty list is already `[]`.
Result: (returned session id, table after the write). -/
def create_session (s : ConversationStore) (now : Int) (t : ConvTable)
    (fresh_id : String) (model_type : String) (initial_messages : List Message) :
    String × ConvTable :=
  (fresh_id, (save_messages s now t fresh_id initial_messages model_type).2)

end AppDatabase

/-- Truthiness test `stored_model and stored_model != model_type` from the
chat route (`src/app/routes/chat.py` line 108). -/
def modelMismatch (stored_model : Option String) (model_type : String) : Bool :=
  match stored_model with
  | some sm => sm != "" && sm != model_type
  | none => false

/-- The session-binding slice of the `/chat` route handler
(`src/app/routes/chat.py` lines 105–124): look up the cookie-held
conversation id; if the stored participant label is truthy and differs
from the incoming one, delete the stored session and forget the id; if the
(possibly reset) conversation is empty, create a fresh session seeded with
the participant's system prompt.  Result: (conversation id now held in the
cookie session, in-memory conversation, table). -/
def chat_session_step (s : ConversationStore) (now : Int) (t : ConvTable)
    (cookie_id : Option String) (model_type : String) (system_prompt : String)
    (fresh_id : String) : Option String × List Message × ConvTable :=
  let looked := AppDatabase.get_conversation t cookie_id
  let step1 :=
    if modelMismatch looked.2 model_type then
      ((none : Option String), ([] : List Message), AppDatabase.delete_session t cookie_id)
    else
      (cookie_id, looked.1, t)
  if step1.2.1.isEmpty then
    let conversation : List Message := [⟨"system", system_prompt⟩]
    let created := AppDatabase.create_session s now step1.2.2 fresh_id model_type conversation
    (some created.1, conversation, created.2)
  else
    step1

/-! ### Helper lemmas about the trimming components -/

theorem sysPart_length_le (T : List Message) : (sysPart T).length ≤ 1 := by
  unfold sysPart
  split
  · simp [Nat.min_le_left]
  · simp

theorem sysPart_append_convPart (T : List Message) : sysPart T ++ convPart T = T := by
  unfold sysPart convPart
  split
  · cases T with
    | nil => simp
    | cons a l => simp
  · simp

theorem pySuffix_length_le (k : Int) (l : List Message) :
    (pySuffix k l).length ≤ k.toNat := by
  unfold pySuffix
  split
  · simp only [List.length_drop]
    omega
  · simp

theorem dropTrailingUser_length_le (l : List Message) :
    (dropTrailingUser l).length ≤ l.length := by
  unfold dropTrailingUser
  split
  · simp only [List.length_dropLast]
    omega
  · exact Nat.le_refl _

theorem adjustKeep_le (conv : List Message) (k : Int) : adjustKeep conv k ≤ k := by
  unfold adjustKeep
  split <;> omega

theorem maxConvOf_le (N : Int) (T : List Message) : maxConvOf N T ≤ N := by
  unfold maxConvOf
  have : (0 : Int) ≤ ((sysPart T).length : Int) := Int.ofNat_nonneg _
  omega

theorem db_trimTail_length (N : Int) (T : List Message) :
    ((AppDatabase.trimTail N T).length : Int) ≤ maxConvOf N T ∨
      (AppDatabase.trimTail N T).length = 0 := by
  unfold AppDatabase.trimTail
  split
  · have h1 := dropTrailingUser_length_le
      (pySuffix (adjustKeep (convPart T) (maxConvOf N T)) (convPart T))
    have h2 := pySuffix_length_le (adjustKeep (convPart T) (maxConvOf N T)) (convPart T)
    have h3 := adjustKeep_le (convPart T) (maxConvOf N T)
    omega
  · rename_i hc
    omega

theorem db_trimTail_of_nonpos (N : Int) (T : List Message) (hN : N ≤ 0) :
    AppDatabase.trimTail N T = [] := by
  have hmax := maxConvOf_le N T
  unfold AppDatabase.trimTail
  split
  · have h3 := adjustKeep_le (convPart T) (maxConvOf N T)
    rw [pySuffix, if_neg (by omega)]
    simp [dropTrailingUser]
  · rename_i hc
    have : (convPart T).length = 0 := by omega
    exact List.length_eq_zero.mp this

/-! ### C2: bounded size of the trimmed transcript -/

/-- C2: for every transcript `T` and budget `N ≥ 1`, the trimming function
of `app/database.py` returns a transcript of length at most `N`. -/
theorem trim_messages_length_bounded (N : Int) (T : List Message) (h : 1 ≤ N) :
    ((AppDatabase.trim_messages N T).length : Int) ≤ N := by
  unfold AppDatabase.trim_messages
  split
  · rename_i hc
    simp only [Bool.or_eq_true, List.isEmpty_iff, decide_eq_true_eq] at hc
    rcases hc with hc | hc
    · subst hc
      simp only [List.length_nil, Nat.cast_zero]
      omega
    · exact hc
  · rw [List.length_append]
    have hs := sysPart_length_le T
    have ht := db_trimTail_length N T
    have hm : maxConvOf N T = N - ((sysPart T).length : Int) := rfl
    push_cast
    omega

/-- Witness for C2 at a concrete over-budget transcript. -/
theorem trim_messages_length_bounded_witness :
    ((AppDatabase.trim_messages 1
        [⟨"user", "a"⟩, ⟨"assistant", "b"⟩, ⟨"user", "c"⟩]).length : Int) ≤ 1 :=
  trim_messages_length_bounded 1
    [⟨"user", "a"⟩, ⟨"assistant", "b"⟩, ⟨"user", "c"⟩] (by norm_num)

/-! ### C3: preservation of a leading system message -/

/-- C3: if `T`'s first message has role `system` and `N ≥ 1`, the first
message of `trim(T, N)` is exactly `T`'s first message. -/
theorem trim_messages_preserves_system (N : Int) (T : List Message) (m : Message)
    (hm : T.head? = some m) (hr : m.role = "system") (hN : 1 ≤ N) :
    (AppDatabase.trim_messages N T).head? = some m := by
  unfold AppDatabase.trim_messages
  split
  · exact hm
  · cases T with
    | nil => simp at hm
    | cons a l =>
      have ham : a = m := by simpa using hm
      subst ham
      have hs : headIsSystem (a :: l) = true := by
        simp [headIsSystem, hr]
      simp [sysPart, hs]

/-- Witness for C3 at a concrete transcript with a leading system message. -/
theorem trim_messages_preserves_system_witness :
    (AppDatabase.trim_messages 2
        [⟨"system", "S"⟩, ⟨"user", "u"⟩, ⟨"assistant", "a"⟩,
         ⟨"user", "x"⟩]).head? = some ⟨"system", "S"⟩ :=
  trim_messages_preserves_system 2
    [⟨"system", "S"⟩, ⟨"user", "u"⟩, ⟨"assistant", "a"⟩, ⟨"user", "x"⟩]
    ⟨"system", "S"⟩ rfl rfl (by norm_num)

/-! ### C9: trimming edge cases (corrected) -/

/-- C9 counterexample: with budget `N = 0` and a transcript consisting of a
single system message, the trimming function of `app/database.py` returns
the system message, not the empty list the claim demands. -/
theorem trim_nonpositive_budget_cex :
    AppDatabase.trim_messages 0 [⟨"system", "S"⟩] ≠ [] := by decide

/-- C9 (amended): on an empty transcript the trimming function returns `[]`
for every budget; with a budget `N ≤ 0` it returns the leading system
message alone when the transcript starts with one, and `[]` otherwise (and,
being a total function, it never raises). -/
theorem trim_messages_edge_cases :
    (∀ N : Int, AppDatabase.trim_messages N [] = []) ∧
    (∀ (N : Int) (T : List Message), N ≤ 0 →
      AppDatabase.trim_messages N T = if headIsSystem T then T.take 1 else []) := by
  constructor
  · intro N
    simp [AppDatabase.trim_messages]
  · intro N T hN
    unfold AppDatabase.trim_messages
    split
    · rename_i hc
      simp only [Bool.or_eq_true, List.isEmpty_iff, decide_eq_true_eq] at hc
      have hT : T = [] := by
        rcases hc with hc | hc
        · exact hc
        · have : (T.length : Int) = 0 := le_antisymm (le_trans hc hN) (Int.ofNat_nonneg _)
          exact List.length_eq_zero.mp (by exact_mod_cast this)
      subst hT
      simp [headIsSystem]
    · rw [db_trimTail_of_nonpos N T hN, List.append_nil]
      rfl

/-- Witness for the amended C9: a nonpositive budget on a transcript with
no leading system message yields the empty list. -/
theorem trim_messages_edge_cases_witness :
    AppDatabase.trim_messages (-2) [⟨"user", "u"⟩] = [] := by
  have h := trim_messages_edge_cases.2 (-2) [⟨"user", "u"⟩] (by norm_num)
  simpa [headIsSystem] using h

/-! ### C5: the two trimming implementations differ only on the
trailing-orphan-user rule -/

/-- C5: the two `_trim_messages` implementations agree on every transcript
except that, when trimming occurs and the `prompt_generator.py` result
ends on a dangling `user` message, the `app/database.py` version drops that
trailing message (its result is the other's `dropLast`); and on some
transcript (22 `user` messages at the default budget 21) their outputs
differ. -/
theorem trim_variants_agree_except_trailing_user :
    (∀ (N : Int) (T : List Message),
      AppDatabase.trim_messages N T = PromptGenerator.trim_messages N T ∨
        (N < (T.length : Int) ∧
          ((PromptGenerator.trim_messages N T).getLast?).map Message.role = some "user" ∧
          AppDatabase.trim_messages N T = (PromptGenerator.trim_messages N T).dropLast)) ∧
    AppDatabase.trim_messages 21 (List.replicate 22 ⟨"user", "u"⟩) ≠
      PromptGenerator.trim_messages 21 (List.replicate 22 ⟨"user", "u"⟩) := by
  constructor
  · intro N T
    by_cases hc : (T.isEmpty || decide ((T.length : Int) ≤ N)) = true
    · left
      rw [AppDatabase.trim_messages, PromptGenerator.trim_messages, if_pos hc, if_pos hc]
    · rw [AppDatabase.trim_messages, PromptGenerator.trim_messages, if_neg hc, if_neg hc,
        AppDatabase.trimTail, PromptGenerator.trimTail]
      by_cases hb : maxConvOf N T < ((convPart T).length : Int)
      · rw [if_pos hb, if_pos hb, if_pos hb]
        by_cases hu :
            ((pySuffix (adjustKeep (convPart T) (maxConvOf N T)) (convPart T)).getLast?).map
              Message.role = some "user"
        · right
          have hXne : pySuffix (adjustKeep (convPart T) (maxConvOf N T)) (convPart T) ≠ [] := by
            intro hnil
            rw [hnil] at hu
            simp at hu
          refine ⟨?_, ?_, ?_⟩
          · simp only [Bool.or_eq_true, List.isEmpty_iff, decide_eq_true_eq, not_or] at hc
            omega
          · rw [List.getLast?_append_of_ne_nil (sysPart T) hXne]
            exact hu
          · rw [dropTrailingUser, if_pos hu, List.dropLast_append_of_ne_nil (sysPart T) hXne]
        · left
          rw [dropTrailingUser, if_neg hu]
      · rw [if_neg hb, if_neg hb]
        left
        rfl
  · decide

/-! ### C4: no orphaned assistant start (corrected) -/

/-- The first message of a transcript whose role is not `system`. -/
def firstNonSystem (l : List Message) : Option Message :=
  (l.dropWhile (fun m => m.role == "system")).head?

/-- The non-system part of a transcript consists of strictly alternating
`user` / `assistant` turns beginning with `user`. -/
def alternatingUA (l : List Message) : Prop :=
  ∀ i (hi : i < l.length),
    (l.get ⟨i, hi⟩).role = if i % 2 = 0 then "user" else "assistant"

theorem firstNonSystem_sysPart_append (T c : List Message) :
    firstNonSystem (sysPart T ++ c) = firstNonSystem c := by
  unfold firstNonSystem sysPart
  split
  · rename_i hs
    cases T with
    | nil => simp [headIsSystem] at hs
    | cons a l =>
      have ha : (a.role == "system") = true := by simpa [headIsSystem] using hs
      simp [List.dropWhile_cons, ha]
  · simp

theorem head_user_firstNonSystem (c : List Message)
    (h : ∀ m, c.head? = some m → m.role = "user") :
    ∀ m, firstNonSystem c = some m → m.role = "user" := by
  intro m hm
  cases c with
  | nil => simp [firstNonSystem] at hm
  | cons a l =>
    have ha : a.role = "user" := h a rfl
    unfold firstNonSystem at hm
    rw [List.dropWhile_cons] at hm
    have hfalse : (a.role == "system") = false := by simp [ha]
    rw [hfalse] at hm
    simp only [Bool.false_eq_true, if_false, List.head?_cons, Option.some.injEq] at hm
    rw [← hm]
    exact ha

theorem drop_head_user (conv : List Message) (hAlt : alternatingUA conv)
    (s : Nat) (hs : s % 2 = 0) :
    ∀ m, (conv.drop s).head? = some m → m.role = "user" := by
  intro m hm
  rw [List.head?_drop] at hm
  have hlt : s < conv.length := by
    by_contra hge
    rw [List.getElem?_eq_none_iff.mpr (Nat.le_of_not_lt hge)] at hm
    cases hm
  rw [List.getElem?_eq_getElem hlt] at hm
  have halt := hAlt s hlt
  rw [if_pos hs] at halt
  have : conv.get ⟨s, hlt⟩ = m := by simpa using hm
  rw [← this]
  exact halt

theorem dropTrailingUser_head {l : List Message} {m : Message}
    (h : (dropTrailingUser l).head? = some m) : l.head? = some m := by
  unfold dropTrailingUser at h
  split at h
  · cases l with
    | nil => simp at h
    | cons a t =>
      cases t with
      | nil => simp at h
      | cons b t2 =>
        rw [show (a :: b :: t2).dropLast = a :: (b :: t2).dropLast from rfl] at h
        simpa using h
  · exact h

theorem roleAt_of_alternating (conv : List Message) (hAlt : alternatingUA conv)
    (s : Nat) (hlt : s < conv.length) :
    roleAt conv s = some (if s % 2 = 0 then "user" else "assistant") := by
  unfold roleAt
  rw [List.get?_eq_getElem?, List.getElem?_eq_getElem hlt]
  have halt := hAlt s hlt
  simp only [Option.map_some']
  rw [show conv[s] = conv.get ⟨s, hlt⟩ from rfl, halt]

theorem db_trimTail_head_user (N : Int) (T : List Message)
    (hAlt : alternatingUA (convPart T)) :
    ∀ m, (AppDatabase.trimTail N T).head? = some m → m.role = "user" := by
  unfold AppDatabase.trimTail
  split
  · rename_i hb
    intro m hm
    have hm' := dropTrailingUser_head hm
    by_cases hk : 0 < adjustKeep (convPart T) (maxConvOf N T)
    · rw [pySuffix, if_pos hk] at hm'
      refine drop_head_user (convPart T) hAlt _ ?_ m hm'
      -- parity of the cut position: the slice starts on an even (user) index
      by_cases hcond :
          ((convPart T).length : Int) - maxConvOf N T < ((convPart T).length : Int) ∧
            roleAt (convPart T)
              (((convPart T).length : Int) - maxConvOf N T).toNat = some "assistant"
      · have hadj : adjustKeep (convPart T) (maxConvOf N T) = maxConvOf N T - 1 := by
          rw [adjustKeep, if_pos hcond]
        rw [hadj] at hk ⊢
        obtain ⟨hlt0, hrole⟩ := hcond
        have hs0lt :
            (((convPart T).length : Int) - maxConvOf N T).toNat < (convPart T).length := by
          omega
        have hralt := roleAt_of_alternating (convPart T) hAlt _ hs0lt
        rw [hrole] at hralt
        have hodd :
            (((convPart T).length : Int) - maxConvOf N T).toNat % 2 = 1 := by
          by_contra hno
          rw [if_pos (by omega)] at hralt
          exact absurd (Option.some.inj hralt) (by decide)
        omega
      · have hadj : adjustKeep (convPart T) (maxConvOf N T) = maxConvOf N T := by
          rw [adjustKeep, if_neg hcond]
        rw [hadj] at hk ⊢
        have hlt0 :
            ((convPart T).length : Int) - maxConvOf N T < ((convPart T).length : Int) := by
          omega
        have hs0lt :
            (((convPart T).length : Int) - maxConvOf N T).toNat < (convPart T).length := by
          omega
        have hralt := roleAt_of_alternating (convPart T) hAlt _ hs0lt
        have hrole :
            roleAt (convPart T)
              (((convPart T).length : Int) - maxConvOf N T).toNat ≠ some "assistant" := by
          intro hr
          exact hcond ⟨hlt0, hr⟩
        have heven :
            (((convPart T).length : Int) - maxConvOf N T).toNat % 2 = 0 := by
          by_contra hno
          rw [if_neg (by omega)] at hralt
          exact hrole hralt
        omega
    · rw [pySuffix, if_neg hk] at hm'
      cases hm'
  · rename_i hb
    intro m hm
    refine drop_head_user (convPart T) hAlt 0 (by norm_num) m ?_
    rw [List.drop_zero]
    exact hm

/-- C4 counterexample: a transcript consisting of one `assistant` message
is under budget, is returned unchanged, and its first non-system message
has role `assistant`, not `user`. -/
theorem trim_first_nonsystem_user_cex :
    firstNonSystem (AppDatabase.trim_messages 21 [⟨"assistant", "a"⟩]) =
        some ⟨"assistant", "a"⟩ ∧ ("assistant" : String) ≠ "user" := by
  constructor
  · decide
  · decide

/-- C4 (amended): for every budget `N` and every transcript `T` whose
non-system part strictly alternates `user`/`assistant` turns beginning
with `user`, the first non-system message of the trimmed result, if any,
has role `user`.  (Unrestricted transcripts can violate the property: an
under-budget transcript is returned unchanged, and the adjustment step
moves the cut by at most one message.) -/
theorem trim_first_nonsystem_user (N : Int) (T : List Message)
    (hAlt : alternatingUA (convPart T)) :
    ∀ m, firstNonSystem (AppDatabase.trim_messages N T) = some m → m.role = "user" := by
  have hhead : ∀ m, (convPart T).head? = some m → m.role = "user" := by
    intro m hm
    refine drop_head_user (convPart T) hAlt 0 (by norm_num) m ?_
    rw [List.drop_zero]
    exact hm
  unfold AppDatabase.trim_messages
  split
  · intro m hm
    rw [← sysPart_append_convPart T, firstNonSystem_sysPart_append] at hm
    exact head_user_firstNonSystem (convPart T) hhead m hm
  · intro m hm
    rw [firstNonSystem_sysPart_append] at hm
    exact head_user_firstNonSystem _ (db_trimTail_head_user N T hAlt) m hm

/-- Witness for the amended C4: a 5-message alternating transcript trimmed
to budget 2 starts (after the cut) on a `user` turn. -/
theorem trim_first_nonsystem_user_witness :
    alternatingUA (convPart
      [⟨"user", "1"⟩, ⟨"assistant", "2"⟩, ⟨"user", "3"⟩, ⟨"assistant", "4"⟩]) ∧
    ∀ m, firstNonSystem (AppDatabase.trim_messages 2
        [⟨"user", "1"⟩, ⟨"assistant", "2"⟩, ⟨"user", "3"⟩, ⟨"assistant", "4"⟩]) =
        some m → m.role = "user" := by
  have hconv : convPart
      [⟨"user", "1"⟩, ⟨"assistant", "2"⟩, ⟨"user", "3"⟩, ⟨"assistant", "4"⟩] =
      [⟨"user", "1"⟩, ⟨"assistant", "2"⟩, ⟨"user", "3"⟩, ⟨"assistant", "4"⟩] := by
    decide
  have halt : alternatingUA (convPart
      [⟨"user", "1"⟩, ⟨"assistant", "2"⟩, ⟨"user", "3"⟩, ⟨"assistant", "4"⟩]) := by
    rw [hconv]
    intro i hi
    simp only [List.length_cons, List.length_nil, Nat.zero_add] at hi
    interval_cases i <;> rfl
  exact ⟨halt, trim_first_nonsystem_user 2 _ halt⟩

/-! ### C1: save / get round trip -/

/-- C1: `save_messages(id, T, p)` returns exactly the trimmed transcript
that was persisted, and an immediately following `get_conversation(id)`
returns exactly `(trim(T, N), p)`.  (`id` is a generated session
identifier, hence nonempty; the configured `max_age_hours` is
nonnegative, as is the default 24.) -/
theorem save_then_get_round_trip (s : ConversationStore) (now : Int) (t : ConvTable)
    (id : String) (T : List Message) (p : String)
    (hid : id ≠ "") (hage : 0 ≤ s.max_age_hours) :
    (AppDatabase.save_messages s now t id T p).1 =
        AppDatabase.trim_messages s.max_messages T ∧
    AppDatabase.get_conversation (AppDatabase.save_messages s now t id T p).2 (some id) =
        (AppDatabase.trim_messages s.max_messages T, some p) := by
  refine ⟨rfl, ?_⟩
  simp only [AppDatabase.get_conversation, AppDatabase.save_messages, AppDatabase.cleanup]
  rw [if_neg hid]
  by_cases h0 : s.max_age_hours = 0
  · rw [if_pos h0]
    simp [decodeConv]
  · rw [if_neg h0]
    have hkeep : ¬ (now < now - s.max_age_hours) := by omega
    simp [decodeConv, hkeep]

/-- Witness for C1 on a concrete store, table and transcript. -/
theorem save_then_get_round_trip_witness :
    (AppDatabase.save_messages ⟨21, 24⟩ 100 (fun _ => none) "sess1"
        [⟨"system", "S"⟩, ⟨"user", "hi"⟩] "flux").1 =
      AppDatabase.trim_messages 21 [⟨"system", "S"⟩, ⟨"user", "hi"⟩] ∧
    AppDatabase.get_conversation
        (AppDatabase.save_messages ⟨21, 24⟩ 100 (fun _ => none) "sess1"
          [⟨"system", "S"⟩, ⟨"user", "hi"⟩] "flux").2 (some "sess1") =
      (AppDatabase.trim_messages 21 [⟨"system", "S"⟩, ⟨"user", "hi"⟩], some "flux") :=
  save_then_get_round_trip ⟨21, 24⟩ 100 (fun _ => none) "sess1"
    [⟨"system", "S"⟩, ⟨"user", "hi"⟩] "flux" (by decide) (by norm_num)

/-! ### C6: every save sweeps out expired sessions -/

/-- C6: a `save_messages` call on any session deletes every other stored
record whose `updated_at` is strictly older than `now - max_age_hours`
(for a configured, nonzero `max_age_hours`), and `get_conversation` on
such a session then returns `([], None)`. -/
theorem save_messages_sweeps_expired (s : ConversationStore) (now : Int) (t : ConvTable)
    (i : String) (T : List Message) (p : String) (j : String) (r : SessionRecord)
    (h0 : s.max_age_hours ≠ 0) (hj : t j = some r)
    (hexp : r.updated_at < now - s.max_age_hours) (hne : j ≠ i) :
    (AppDatabase.save_messages s now t i T p).2 j = none ∧
    AppDatabase.get_conversation (AppDatabase.save_messages s now t i T p).2 (some j) =
      ([], none) := by
  have hdel : (AppDatabase.save_messages s now t i T p).2 j = none := by
    simp only [AppDatabase.save_messages, AppDatabase.cleanup]
    rw [if_neg h0]
    simp only [if_neg hne, hj]
    rw [if_pos hexp]
  refine ⟨hdel, ?_⟩
  by_cases hjnil : j = ""
  · subst hjnil
    simp [AppDatabase.get_conversation]
  · simp only [AppDatabase.get_conversation]
    rw [if_neg hjnil, hdel]

/-- Witness for C6: `max_age_hours = 24`, a stale record last updated 48
hours before `now`, swept by a save on a different session. -/
theorem save_messages_sweeps_expired_witness :
    (AppDatabase.save_messages ⟨21, 24⟩ 100
        (fun x => if x = "stale" then some ⟨"flux", StoredConv.wellFormed [], 52⟩ else none)
        "other" [] "sdxl").2 "stale" = none ∧
    AppDatabase.get_conversation
        (AppDatabase.save_messages ⟨21, 24⟩ 100
          (fun x => if x = "stale" then some ⟨"flux", StoredConv.wellFormed [], 52⟩ else none)
          "other" [] "sdxl").2 (some "stale") = ([], none) :=
  save_messages_sweeps_expired ⟨21, 24⟩ 100
    (fun x => if x = "stale" then some ⟨"flux", StoredConv.wellFormed [], 52⟩ else none)
    "other" [] "sdxl" "stale" ⟨"flux", StoredConv.wellFormed [], 52⟩
    (by norm_num) (by decide) (by norm_num) (by decide)

/-! ### C8: idempotent, total delete -/

/-- C8: `delete_session` is idempotent, never errors (it is a total
function), leaves `get_conversation` returning `([], None)` after either
of two successive calls, and is a no-op on a null identifier or on an
identifier with no stored record. -/
theorem delete_session_idempotent_spec (t : ConvTable) (x : Option String) :
    AppDatabase.delete_session (AppDatabase.delete_session t x) x =
        AppDatabase.delete_session t x ∧
    AppDatabase.get_conversation (AppDatabase.delete_session t x) x = ([], none) ∧
    AppDatabase.get_conversation
        (AppDatabase.delete_session (AppDatabase.delete_session t x) x) x = ([], none) ∧
    (x = none → AppDatabase.delete_session t x = t) ∧
    (∀ sid, x = some sid → t sid = none → AppDatabase.delete_session t x = t) := by
  match x with
  | none =>
    exact ⟨rfl, rfl, rfl, fun _ => rfl, fun sid h _ => by cases h⟩
  | some sid =>
    by_cases hs : sid = ""
    · subst hs
      refine ⟨?_, ?_, ?_, ?_, ?_⟩
      · simp [AppDatabase.delete_session]
      · simp [AppDatabase.get_conversation, AppDatabase.delete_session]
      · simp [AppDatabase.get_conversation, AppDatabase.delete_session]
      · intro h
        cases h
      · intro sid' h _
        simp [AppDatabase.delete_session]
    · have hget : ∀ t' : ConvTable, t' sid = none →
          AppDatabase.get_conversation t' (some sid) = ([], none) := by
        intro t' ht'
        simp only [AppDatabase.get_conversation]
        rw [if_neg hs, ht']
      have hone : AppDatabase.delete_session t (some sid) sid = none := by
        simp [AppDatabase.delete_session, hs]
      refine ⟨?_, hget _ hone, ?_, ?_, ?_⟩
      · funext y
        simp only [AppDatabase.delete_session]
        rw [if_neg hs]
        by_cases hy : y = sid <;> simp [hy, hs]
      · refine hget _ ?_
        simp [AppDatabase.delete_session, hs]
      · intro h
        cases h
      · intro sid' h hnone
        have hsid : sid' = sid := by
          injection h with h2
          exact h2.symm
        subst hsid
        funext y
        simp only [AppDatabase.delete_session]
        rw [if_neg hs]
        by_cases hy : y = sid'
        · subst hy
          simp [hnone]
        · simp [hy]

/-- Witness for C8: deleting an unknown identifier from the empty table is
a no-op. -/
theorem delete_session_idempotent_spec_witness :
    AppDatabase.delete_session (fun _ => none) (some "ghost") = (fun _ => none) :=
  (delete_session_idempotent_spec (fun _ => none) (some "ghost")).2.2.2.2 "ghost" rfl rfl

/-! ### C10: malformed stored transcript degrades to `[]` but keeps the label -/

/-- C10: when the stored `conversation` column holds text that is not
valid JSON, `get_conversation` returns `([], model_type)` — the transcript
degrades to empty but the participant label is still returned (a `some`,
not the `none` of the missing-session case). -/
theorem get_conversation_corrupt_label (t : ConvTable) (sid : String)
    (r : SessionRecord) (raw : String) (hs : sid ≠ "") (ht : t sid = some r)
    (hc : r.conversation = StoredConv.corrupt raw) :
    AppDatabase.get_conversation t (some sid) = ([], some r.model_type) ∧
    (some r.model_type ≠ (none : Option String)) := by
  refine ⟨?_, by simp⟩
  simp only [AppDatabase.get_conversation]
  rw [if_neg hs, ht]
  show (decodeConv r.conversation, some r.model_type) = ([], some r.model_type)
  rw [hc]
  simp [decodeConv]

/-- Witness for C10 on a concrete table holding unparsable text. -/
theorem get_conversation_corrupt_label_witness :
    AppDatabase.get_conversation
        (fun x => if x = "s1" then some ⟨"flux", StoredConv.corrupt "not json", 5⟩ else none)
        (some "s1") = ([], some "flux") ∧
    (some ("flux" : String) ≠ (none : Option String)) :=
  get_conversation_corrupt_label
    (fun x => if x = "s1" then some ⟨"flux", StoredConv.corrupt "not json", 5⟩ else none)
    "s1" ⟨"flux", StoredConv.corrupt "not json", 5⟩ "not json"
    (by decide) (by decide) rfl

/-! ### C7: participant switch deletes the old session and creates a new one -/

/-- C7: when a chat request's participant label differs from the (truthy)
label stored for the client's current session, the route handler deletes
the old record and creates a new session under the fresh identifier; the
old record is gone, `get_conversation` on the old id returns `([], None)`,
the cookie now holds the fresh id, and the fresh id maps to the newly
created record. -/
theorem chat_model_switch_isolation (s : ConversationStore) (now : Int) (t : ConvTable)
    (old fresh : String) (r : SessionRecord) (mt sp : String)
    (hold : old ≠ "") (ht : t old = some r) (hmt1 : r.model_type ≠ "")
    (hmt2 : r.model_type ≠ mt) (hfresh : fresh ≠ old) (hage : 0 ≤ s.max_age_hours) :
    (chat_session_step s now t (some old) mt sp fresh).2.2 old = none ∧
    AppDatabase.get_conversation (chat_session_step s now t (some old) mt sp fresh).2.2
        (some old) = ([], none) ∧
    (chat_session_step s now t (some old) mt sp fresh).1 = some fresh ∧
    (chat_session_step s now t (some old) mt sp fresh).2.2 fresh =
      some ⟨mt, StoredConv.wellFormed
        (AppDatabase.trim_messages s.max_messages [⟨"system", sp⟩]), now⟩ := by
  have hlook : AppDatabase.get_conversation t (some old) =
      (decodeConv r.conversation, some r.model_type) := by
    simp only [AppDatabase.get_conversation]
    rw [if_neg hold, ht]
  have hmm : modelMismatch (some r.model_type) mt = true := by
    simp [modelMismatch, hmt1, hmt2]
  have hstep : chat_session_step s now t (some old) mt sp fresh =
      (some fresh, [⟨"system", sp⟩],
        (AppDatabase.save_messages s now (AppDatabase.delete_session t (some old))
          fresh [⟨"system", sp⟩] mt).2) := by
    simp only [chat_session_step, hlook, hmm, if_true, List.isEmpty_nil,
      AppDatabase.create_session]
  have hdelold : AppDatabase.delete_session t (some old) old = none := by
    simp [AppDatabase.delete_session, hold]
  have hne2 : ¬ (old = fresh) := fun h => hfresh h.symm
  have htold : (AppDatabase.save_messages s now (AppDatabase.delete_session t (some old))
      fresh [⟨"system", sp⟩] mt).2 old = none := by
    simp only [AppDatabase.save_messages, AppDatabase.cleanup]
    by_cases h0 : s.max_age_hours = 0
    · rw [if_pos h0]
      simp only [if_neg hne2]
      exact hdelold
    · rw [if_neg h0]
      simp only [if_neg hne2]
      rw [hdelold]
  have htfresh : (AppDatabase.save_messages s now (AppDatabase.delete_session t (some old))
      fresh [⟨"system", sp⟩] mt).2 fresh =
      some ⟨mt, StoredConv.wellFormed
        (AppDatabase.trim_messages s.max_messages [⟨"system", sp⟩]), now⟩ := by
    simp only [AppDatabase.save_messages, AppDatabase.cleanup]
    by_cases h0 : s.max_age_hours = 0
    · rw [if_pos h0]
      simp
    · rw [if_neg h0]
      have hkeep : ¬ (now < now - s.max_age_hours) := by omega
      simp [hkeep]
  rw [hstep]
  refine ⟨htold, ?_, rfl, htfresh⟩
  simp only [AppDatabase.get_conversation]
  rw [if_neg hold, htold]

/-- Witness for C7: a "flux" session superseded by an "sdxl" request. -/
theorem chat_model_switch_isolation_witness :
    (chat_session_step ⟨21, 24⟩ 100
        (fun x => if x = "oldsession" then
          some ⟨"flux", StoredConv.wellFormed [⟨"system", "S"⟩], 99⟩ else none)
        (some "oldsession") "sdxl" "P" "freshsession").2.2 "oldsession" = none ∧
    AppDatabase.get_conversation
        (chat_session_step ⟨21, 24⟩ 100
          (fun x => if x = "oldsession" then
            some ⟨"flux", StoredConv.wellFormed [⟨"system", "S"⟩], 99⟩ else none)
          (some "oldsession") "sdxl" "P" "freshsession").2.2 (some "oldsession") =
      ([], none) ∧
    (chat_session_step ⟨21, 24⟩ 100
        (fun x => if x = "oldsession" then
          some ⟨"flux", StoredConv.wellFormed [⟨"system", "S"⟩], 99⟩ else none)
        (some "oldsession") "sdxl" "P" "freshsession").1 = some "freshsession" ∧
    (chat_session_step ⟨21, 24⟩ 100
        (fun x => if x = "oldsession" then
          some ⟨"flux", StoredConv.wellFormed [⟨"system", "S"⟩], 99⟩ else none)
        (some "oldsession") "sdxl" "P" "freshsession").2.2 "freshsession" =
      some ⟨"sdxl", StoredConv.wellFormed
        (AppDatabase.trim_messages 21 [⟨"system", "P"⟩]), 100⟩ :=
  chat_model_switch_isolation ⟨21, 24⟩ 100
    (fun x => if x = "oldsession" then
      some ⟨"flux", StoredConv.wellFormed [⟨"system", "S"⟩], 99⟩ else none)
    "oldsession" "freshsession" ⟨"flux", StoredConv.wellFormed [⟨"system", "S"⟩], 99⟩
    "sdxl" "P" (by decide) (by decide) (by decide) (by decide) (by decide) (by norm_num)
